import Mathlib

/-!
Verification of the Edenic telemetry dashboard core (repository `bluelab`).

Shallow embedding of the telemetry ingestion / history pipeline of
`src/edenic_dashboard.py` (`get_latest_telemetry`, `append_reading`, the
fetch-and-append part of `main`), together with the unit-conversion helpers
of `src/edenic_dashboard_fixedsheets.py` (`convert_c_to_f`) and
`src/edenic_dashboard_final.py`.

Modelling conventions:
* timestamps are epoch milliseconds, modelled as `ℤ` (the source converts
  them to UTC datetimes via `datetime.fromtimestamp(ts / 1000, utc)`, an
  injective order-preserving map, so comparing the raw milliseconds is
  faithful);
* JSON numbers are modelled as `ℚ`;
* a JSON value that may be absent or `null` is an `Option`;
* Python exceptions raised inside the normalizer are modelled with
  `Except String`.
-/

namespace Edenic

/-- One telemetry item, a JSON object `{value, ts}`.  `none` models a JSON
`null` or a missing field (in Python both make `item.get(k)` return `None`). -/
structure Item where
  value : Option ℚ
  ts : Option ℤ
  deriving DecidableEq, Repr

/-- The value a measurement key maps to in the raw payload: either a single
JSON object or a list of objects ordered most-recent-first (the two upstream
shapes named in the spec). -/
inductive RawVal where
  | obj (item : Item)
  | list (items : List Item)
  deriving DecidableEq, Repr

/-- Python truthiness of `data[key]`: a (non-empty) JSON object is truthy, a
list is truthy iff non-empty.  (`RawVal.obj` models a JSON object carrying
the standard fields, hence a non-empty dict.) -/
def RawVal.truthy : RawVal → Bool
  | .obj _ => true
  | .list items => !items.isEmpty

/-- The parsed response body: the three known measurement keys, each possibly
absent (`none` models `key not in data`). -/
structure RawData where
  ph : Option RawVal
  electrical_conductivity : Option RawVal
  temperature : Option RawVal
  deriving DecidableEq, Repr

/-- `data[key][0]` in `get_latest_telemetry`: on a list this is the first
(most recent) element; on a JSON object (a Python dict) integer indexing
raises `KeyError`.  Only called on truthy values, so the empty-list case is
unreachable there. -/
def getField : RawVal → Except String Item
  | .obj _ => .error "KeyError: 0"
  | .list [] => .error "IndexError: 0"
  | .list (item :: _) => .ok item

/-- The canonical reading: the tuple `(ts, ph, ec, temp)` returned by
`get_latest_telemetry`. -/
structure Reading where
  ts : Option ℤ
  ph : Option ℚ
  ec : Option ℚ
  temp : Option ℚ
  deriving DecidableEq, Repr

/-- The `ph` branch of `get_latest_telemetry` (src/edenic_dashboard.py,
lines 104-107), applied to `data["ph"]`.  Returns the pair `(ts, ph)` after
the branch.  Note the source computes `item.get("ts") / 1000` with no `None`
guard here, so a `ph` item whose `ts` is absent or null raises `TypeError`
in Python. -/
def stepPh (v : Option RawVal) : Except String (Option ℤ × Option ℚ) :=
  match v with
  | none => .ok (none, none)
  | some v =>
    if v.truthy then
      match getField v with
      | .error e => .error e
      | .ok item =>
        match item.ts with
        | none => .error "TypeError: NoneType division"
        | some t => .ok (some t, item.value)
    else .ok (none, none)

/-- The `electrical_conductivity` branch (lines 108-113) and the identical
`temperature` branch (lines 114-118), applied to the raw value of the key.  The
timestamp is only taken when none has been determined yet (`tsIn = none`)
and the `ts` of this item is non-null.  The extracted value is stored as-is: no
unit conversion happens in this function. -/
def stepGuarded (tsIn : Option ℤ) (v : Option RawVal) :
    Except String (Option ℤ × Option ℚ) :=
  match v with
  | none => .ok (tsIn, none)
  | some v =>
    if v.truthy then
      match getField v with
      | .error e => .error e
      | .ok item =>
        let ts' : Option ℤ :=
          match tsIn, item.ts with
          | none, some t => some t
          | _, _ => tsIn
        .ok (ts', item.value)
    else .ok (tsIn, none)

/-- `get_latest_telemetry` (src/edenic_dashboard.py, lines 97-119), after the
HTTP fetch and JSON decoding: the three key branches in source order, any
raised exception propagating. -/
def get_latest_telemetry (data : RawData) : Except String Reading :=
  match stepPh data.ph with
  | .error e => .error e
  | .ok (ts1, ph) =>
    match stepGuarded ts1 data.electrical_conductivity with
    | .error e => .error e
    | .ok (ts2, ec) =>
      match stepGuarded ts2 data.temperature with
      | .error e => .error e
      | .ok (ts3, temp) => .ok ⟨ts3, ph, ec, temp⟩

/-- One row of the history DataFrame (columns `time`, `pH`, `EC`,
`temperature`).  `time` is `Option` because the column is dynamically typed;
`append_reading` is what keeps it non-null. -/
structure Row where
  time : Option ℤ
  pH : Option ℚ
  EC : Option ℚ
  temperature : Option ℚ
  deriving DecidableEq, Repr

/-- `append_reading` (src/edenic_dashboard.py, lines 122-151): no-op when
`timestamp is None`; append when the frame is empty or the `time` of the last row
differs from `timestamp`; otherwise no-op. -/
def append_reading (df : List Row) (timestamp : Option ℤ)
    (ph ec temp : Option ℚ) : List Row :=
  match timestamp with
  | none => df
  | some t =>
    match df.getLast? with
    | none => df ++ [⟨some t, ph, ec, temp⟩]
    | some lastRow =>
      if lastRow.time ≠ some t then df ++ [⟨some t, ph, ec, temp⟩] else df

/-- All rows of a history carry a non-null `time`. -/
def noNoneTime (df : List Row) : Bool :=
  df.all fun r => r.time.isSome

/-- Whether a row falls inside the display window `[now - lookback, now]`;
`none` lookback means unbounded. -/
def inWindow (now : ℤ) (lookback : Option ℤ) (r : Row) : Bool :=
  match lookback with
  | none => true
  | some lb =>
    match r.time with
    | some t => decide (now - lb ≤ t)
    | none => false

/-- Modelled from the spec: `selectWindow(history, now, lookback)` — no
window-selection code exists under `src/` (the dashboard charts the full
history), so this follows §4.4 of the spec: a predicate filter keeping the
entries whose `timestamp >= now - lookback`, with `none` as the unbounded
lookback. -/
def selectWindow (history : List Row) (now : ℤ) (lookback : Option ℤ) :
    List Row :=
  history.filter (inWindow now lookback)

/-- Timestamp comparison between rows, vacuously true when either side is
null: used to state that a history is time-ascending. -/
def rowLeB (a b : Row) : Bool :=
  match a.time, b.time with
  | some ta, some tb => decide (ta ≤ tb)
  | _, _ => true

/-- A history is ordered by `time` ascending. -/
def timesAscending (h : List Row) : Prop :=
  List.Pairwise (fun a b => rowLeB a b = true) h

instance (h : List Row) : Decidable (timesAscending h) :=
  List.instDecidablePairwise h

/-- Spec-side: the `ts` a measurement key supplies — the `ts` of the most
recent entry (the single object, or the head of the most-recent-first list). -/
def keyTs : Option RawVal → Option ℤ
  | some (.obj item) => item.ts
  | some (.list (item :: _)) => item.ts
  | _ => none

/-- Spec-side: the `value` a measurement key supplies. -/
def keyValue : Option RawVal → Option ℚ
  | some (.obj item) => item.value
  | some (.list (item :: _)) => item.value
  | _ => none

/-- Spec-side: the first non-null `ts` in the fixed priority order
acidity (ph), conductivity, temperature. -/
def firstNonNullTs (data : RawData) : Option ℤ :=
  (keyTs data.ph <|> keyTs data.electrical_conductivity) <|>
    keyTs data.temperature

/-- Round-half-to-even to an integer, the tie rule of the Python builtin `round`. -/
def roundHalfEven (q : ℚ) : ℤ :=
  let f : ℤ := ⌊q⌋
  if q - f < 1 / 2 then f
  else if (1 : ℚ) / 2 < q - f then f + 1
  else if f % 2 = 0 then f else f + 1

/-- `convert_c_to_f` (src/edenic_dashboard_fixedsheets.py, lines 34-35):
`round((c * 9/5) + 32, 2)` — the Fahrenheit value rounded to two decimal
places.  The same expression computes `temp_f` in
src/edenic_dashboard_final.py, line 39. -/
def convert_c_to_f (c : ℚ) : ℚ :=
  (roundHalfEven ((c * 9 / 5 + 32) * 100) : ℚ) / 100

/-- The per-key extraction of src/edenic_dashboard_fixedsheets.py, lines
40-42: `data.get(key, {}).get("value", "N/A")`.  A missing key or missing
`value` yields the `"N/A"` sentinel (modelled as `none`); a list-shaped
value has no `.get` attribute and raises `AttributeError`. -/
def fs_value : Option RawVal → Except String (Option ℚ)
  | none => .ok none
  | some (.obj item) => .ok item.value
  | some (.list _) => .error "AttributeError: get"

/-- Outcome of the external fetch, as classified by the two dedicated
`except` clauses of `main` (requests.HTTPError and the broader
requests.RequestException). -/
inductive FetchResult where
  | ok (data : RawData)
  | httpError (msg : String)
  | netError (msg : String)
  deriving DecidableEq, Repr

/-- What `main` shows for the cycle: a normal update, or one of the
categorized error messages from its `except` clauses. -/
inductive CycleMsg where
  | updated
  | httpErrorMsg (m : String)
  | netErrorMsg (m : String)
  | unexpectedErrorMsg (m : String)
  deriving DecidableEq, Repr

/-- One poll cycle of `main` (src/edenic_dashboard.py, lines 174-185): on a
fetch failure the corresponding `except` clause fires before
`get_latest_telemetry` runs, leaving the history untouched; an exception
raised inside `get_latest_telemetry` is caught by the final
`except Exception`; otherwise the reading is appended via
`append_reading`. -/
def runCycle (history : List Row) (fetch : FetchResult) :
    List Row × CycleMsg :=
  match fetch with
  | .httpError m => (history, .httpErrorMsg m)
  | .netError m => (history, .netErrorMsg m)
  | .ok data =>
    match get_latest_telemetry data with
    | .error e => (history, .unexpectedErrorMsg e)
    | .ok r => (append_reading history r.ts r.ph r.ec r.temp, .updated)

/-- The payload of end-to-end scenario A. -/
def scenarioA : RawData :=
  { ph := some (.list [⟨some 6.5, some 1700000000000⟩])
    electrical_conductivity := some (.list [⟨some 1.8, some 1700000000000⟩])
    temperature := some (.list [⟨some 22, some 1700000000000⟩]) }

end Edenic

namespace Edenic

/-- Concrete two-row ascending history used to instantiate the window
selector theorems. -/
def historyW : List Row :=
  [⟨some 10, none, none, none⟩, ⟨some 20, some 1.8, none, none⟩]

/-! ## Helper lemmas -/

/-- Rounding an integer is the identity. -/
lemma roundHalfEven_intCast (n : ℤ) : roundHalfEven (n : ℚ) = n := by
  simp [roundHalfEven]

/-- A successful `ph` branch yields exactly the `ts` and `value` that the key
supplies. -/
lemma stepPh_ok_spec (v : Option RawVal) (ts : Option ℤ) (val : Option ℚ)
    (h : stepPh v = .ok (ts, val)) : ts = keyTs v ∧ val = keyValue v := by
  rcases v with _ | (item | items)
  · simp only [stepPh] at h
    injection h with h
    injection h with h1 h2
    exact ⟨h1.symm, h2.symm⟩
  · simp [stepPh, RawVal.truthy, getField] at h
  · rcases items with _ | ⟨item, rest⟩
    · simp only [stepPh, RawVal.truthy, List.isEmpty_nil, Bool.not_true,
        if_neg] at h
      injection h with h
      injection h with h1 h2
      exact ⟨h1.symm, h2.symm⟩
    · rcases hts : item.ts with _ | t
      · simp [stepPh, RawVal.truthy, getField, hts] at h
      · simp only [stepPh, RawVal.truthy, List.isEmpty_cons, Bool.not_false,
          if_true, getField, hts] at h
        injection h with h
        injection h with h1 h2
        simp [keyTs, keyValue, hts]
        exact ⟨h1.symm, h2.symm⟩

/-- A successful guarded branch keeps an already-determined timestamp and
otherwise takes the non-null `ts` that the key supplies. -/
lemma stepGuarded_ok_spec (tsIn : Option ℤ) (v : Option RawVal)
    (ts : Option ℤ) (val : Option ℚ)
    (h : stepGuarded tsIn v = .ok (ts, val)) :
    ts = (tsIn <|> keyTs v) ∧ val = keyValue v := by
  rcases v with _ | (item | items)
  · simp only [stepGuarded] at h
    injection h with h
    injection h with h1 h2
    rcases tsIn with _ | t <;> exact ⟨h1.symm, h2.symm⟩
  · simp [stepGuarded, RawVal.truthy, getField] at h
  · rcases items with _ | ⟨item, rest⟩
    · simp only [stepGuarded, RawVal.truthy, List.isEmpty_nil, Bool.not_true,
        if_neg] at h
      injection h with h
      injection h with h1 h2
      rcases tsIn with _ | t <;> exact ⟨h1.symm, h2.symm⟩
    · simp only [stepGuarded, RawVal.truthy, List.isEmpty_cons, Bool.not_false,
        if_true, getField] at h
      injection h with h
      injection h with h1 h2
      rcases tsIn with _ | t0 <;> rcases hts : item.ts with _ | t <;>
        rw [hts] at h1 <;> simp [keyTs, keyValue, hts] <;>
        exact ⟨h1.symm, h2.symm⟩

/-- Characterization of a successful normalization: the timestamp is the
first non-null `ts` in key-priority order and each measurement field is the
raw value the corresponding key supplies. -/
lemma get_latest_telemetry_ok (d : RawData) (r : Reading)
    (h : get_latest_telemetry d = .ok r) :
    r.ts = ((keyTs d.ph <|> keyTs d.electrical_conductivity) <|>
        keyTs d.temperature) ∧
    r.ph = keyValue d.ph ∧
    r.ec = keyValue d.electrical_conductivity ∧
    r.temp = keyValue d.temperature := by
  unfold get_latest_telemetry at h
  rcases h1 : stepPh d.ph with e1 | ⟨ts1, ph⟩ <;> rw [h1] at h
  · simp at h
  dsimp only at h
  rcases h2 : stepGuarded ts1 d.electrical_conductivity with e2 | ⟨ts2, ec⟩ <;>
    rw [h2] at h
  · simp at h
  dsimp only at h
  rcases h3 : stepGuarded ts2 d.temperature with e3 | ⟨ts3, temp⟩ <;>
    rw [h3] at h
  · simp at h
  dsimp only at h
  injection h with h
  subst h
  obtain ⟨e1, e1v⟩ := stepPh_ok_spec _ _ _ h1
  obtain ⟨e2, e2v⟩ := stepGuarded_ok_spec _ _ _ _ h2
  obtain ⟨e3, e3v⟩ := stepGuarded_ok_spec _ _ _ _ h3
  subst e1; subst e2; subst e3
  exact ⟨rfl, e1v, e2v, e3v⟩

/-- Filtering with a predicate that is upward-closed along the list order
yields a suffix. -/
lemma filter_suffix_of_pairwise_imp {α : Type} (p : α → Bool) :
    ∀ (l : List α), l.Pairwise (fun a b => p a = true → p b = true) →
      l.filter p <:+ l := by
  intro l hl
  induction l with
  | nil => simp
  | cons a t ih =>
    rcases List.pairwise_cons.mp hl with ⟨ha, ht⟩
    by_cases hp : p a = true
    · have hforall : t.filter p = t :=
        List.filter_eq_self.mpr fun b hb => ha b hb hp
      rw [List.filter_cons_of_pos hp, hforall]
    · rw [List.filter_cons_of_neg (by simpa using hp)]
      exact (ih ht).trans (List.suffix_cons a t)

/-- Appending a reading whose timestamp equals the `time` of the last stored
row is a no-op. -/
lemma append_reading_last_same_ts (df : List Row) (lr : Row) (t : ℤ)
    (ph ec temp : Option ℚ) (h1 : df.getLast? = some lr)
    (h2 : lr.time = some t) :
    append_reading df (some t) ph ec temp = df := by
  unfold append_reading
  rw [h1]
  simp [h2]

/-! ## Claim theorems -/

/-- Claim C1, counterexample: the scenario A payload (temperature value
22.0) yields a canonical Reading whose temperature field is 22, the raw
Celsius value, and 22 is not the Fahrenheit value 71.6 the claim demands. -/
theorem temperature_not_fahrenheit_cex :
    get_latest_telemetry scenarioA =
      .ok ⟨some 1700000000000, some 6.5, some 1.8, some 22⟩ ∧
    (22 : ℚ) ≠ 716 / 10 :=
  ⟨rfl, by norm_num⟩

/-- Claim C1, amended: the canonical Reading built by `get_latest_telemetry`
stores the temperature value exactly as extracted — raw Celsius, with no
conversion at normalization time; the Celsius-to-Fahrenheit conversion lives
only in the fixedsheets/final display variants, whose `convert_c_to_f` maps
22.0 to 71.6. -/
theorem temperature_raw_celsius_amended :
    (∀ (d : RawData) (r : Reading), get_latest_telemetry d = .ok r →
        r.temp = keyValue d.temperature) ∧
    keyValue scenarioA.temperature = some 22 ∧
    convert_c_to_f 22 = 716 / 10 := by
  refine ⟨fun d r h => (get_latest_telemetry_ok d r h).2.2.2, rfl, ?_⟩
  have h : ((22 : ℚ) * 9 / 5 + 32) * 100 = ((7160 : ℤ) : ℚ) := by norm_num
  rw [convert_c_to_f, h, roundHalfEven_intCast]
  norm_num

/-- Witness for the amended claim C1 at the scenario A payload. -/
theorem temperature_raw_celsius_amended_w :
    get_latest_telemetry scenarioA =
      Except.ok ⟨some 1700000000000, some 6.5, some 1.8, some 22⟩ ∧
    Reading.temp ⟨some 1700000000000, some 6.5, some 1.8, some 22⟩ =
      keyValue scenarioA.temperature :=
  ⟨rfl, temperature_raw_celsius_amended.1 scenarioA
    ⟨some 1700000000000, some 6.5, some 1.8, some 22⟩ rfl⟩

/-- Claim C2: `selectWindow` keeps exactly the entries with
`timestamp >= now - lookback` (it is sound, and it keeps as many entries as
qualify); on an ascending fully-timestamped history it is a suffix; its
length is monotone in the lookback; an unbounded lookback returns the full
history. -/
theorem selectWindow_correct (h : List Row) (now lb lb1 lb2 : ℤ)
    (hasc : timesAscending h) (hsome : noNoneTime h = true)
    (hlb : lb1 ≤ lb2) :
    (selectWindow h now (some lb)).all (inWindow now (some lb)) = true ∧
    h.countP (inWindow now (some lb)) =
      (selectWindow h now (some lb)).length ∧
    selectWindow h now (some lb) <:+ h ∧
    (selectWindow h now (some lb1)).length ≤
      (selectWindow h now (some lb2)).length ∧
    selectWindow h now none = h := by
  refine ⟨?_, ?_, ?_, ?_, ?_⟩
  · exact List.all_eq_true.mpr fun r hr => (List.mem_filter.mp hr).2
  · exact (List.countP_eq_length_filter _ _)
  · apply filter_suffix_of_pairwise_imp
    have hsome' : ∀ r ∈ h, r.time.isSome = true :=
      fun r hr => List.all_eq_true.mp hsome r hr
    refine hasc.imp_of_mem ?_
    intro a b hma hmb hab hwa
    rcases hta : a.time with _ | ta
    · simp [inWindow, hta] at hwa
    rcases htb : b.time with _ | tb
    · have := hsome' b hmb
      simp [htb] at this
    have h1 : now - lb ≤ ta := by simpa [inWindow, hta] using hwa
    have h2 : ta ≤ tb := by simpa [rowLeB, hta, htb] using hab
    simp [inWindow, htb]
    omega
  · refine List.Sublist.length_le (List.monotone_filter_right h ?_)
    intro a hpa
    rcases hta : a.time with _ | ta
    · simp [inWindow, hta] at hpa
    have h1 : now - lb1 ≤ ta := by simpa [inWindow, hta] using hpa
    simp [inWindow, hta]
    omega
  · exact List.filter_eq_self.mpr fun r hr => rfl

/-- Witness for claim C2 on a concrete two-row history. -/
theorem selectWindow_correct_w :
    (selectWindow historyW 25 (some 10)).all (inWindow 25 (some 10)) = true ∧
    historyW.countP (inWindow 25 (some 10)) =
      (selectWindow historyW 25 (some 10)).length ∧
    selectWindow historyW 25 (some 10) <:+ historyW ∧
    (selectWindow historyW 25 (some 3)).length ≤
      (selectWindow historyW 25 (some 10)).length ∧
    selectWindow historyW 25 none = historyW :=
  selectWindow_correct historyW 25 10 3 10 (by decide) (by decide) (by decide)

/-- Claim C3: appending a reading whose timestamp equals the timestamp of
the last stored entry is a no-op, and in particular a second poll returning
the identical scenario A timestamp leaves the history at length 1. -/
theorem append_reading_dup_ts_noop :
    (∀ (df : List Row) (lr : Row) (t : ℤ) (ph ec temp : Option ℚ),
        df.getLast? = some lr → lr.time = some t →
        append_reading df (some t) ph ec temp = df) ∧
    (append_reading
        (append_reading [] (some 1700000000000) (some 6.5) (some 1.8) (some 22))
        (some 1700000000000) (some 6.5) (some 1.8) (some 22)).length = 1 := by
  constructor
  · exact fun df lr t ph ec temp h1 h2 =>
      append_reading_last_same_ts df lr t ph ec temp h1 h2
  · decide

/-- Witness for claim C3 on a one-row history. -/
theorem append_reading_dup_ts_noop_w :
    append_reading [⟨some 5, some 6.5, none, none⟩] (some 5) none none none =
      [⟨some 5, some 6.5, none, none⟩] :=
  append_reading_dup_ts_noop.1 _ _ 5 none none none rfl rfl

/-- Claim C4: `append_reading` with a `None` timestamp returns the history
unchanged, and it preserves the invariant that every stored row carries a
non-null `time`. -/
theorem append_reading_none_ts_invariant :
    (∀ (df : List Row) (ph ec temp : Option ℚ),
        append_reading df none ph ec temp = df) ∧
    (∀ (df : List Row) (ts : Option ℤ) (ph ec temp : Option ℚ),
        noNoneTime df = true →
        noNoneTime (append_reading df ts ph ec temp) = true) := by
  constructor
  · exact fun df ph ec temp => rfl
  · intro df ts ph ec temp hdf
    rcases ts with _ | t
    · exact hdf
    unfold append_reading
    rcases hl : df.getLast? with _ | lr
    · simp [noNoneTime, List.all_append] at hdf ⊢
      exact hdf
    dsimp only
    by_cases hne : lr.time ≠ some t
    · rw [if_pos hne]
      simp [noNoneTime, List.all_append] at hdf ⊢
      exact hdf
    · rw [if_neg hne]
      exact hdf

/-- Witness for claim C4: both conjuncts at concrete histories. -/
theorem append_reading_none_ts_invariant_w :
    append_reading [] none (some 6.5) none none = [] ∧
    noNoneTime
      (append_reading [⟨some 1, none, none, none⟩] (some 2) none none none) =
      true :=
  ⟨append_reading_none_ts_invariant.1 [] (some 6.5) none none,
   append_reading_none_ts_invariant.2 _ _ _ _ _ (by decide)⟩

/-- Claim C5 (code bug): a payload whose `ph` item carries no `ts` makes the
normalizer raise `TypeError` — `item.get("ts") / 1000` on line 107 has no
`None` guard, unlike the `electrical_conductivity` and `temperature`
branches, which degrade gracefully (second conjunct), and unlike a payload
missing every key, which yields the all-`None` reading (third conjunct). -/
theorem ph_missing_ts_raises :
    get_latest_telemetry ⟨some (.list [⟨some 6.5, none⟩]), none, none⟩ =
      .error "TypeError: NoneType division" ∧
    get_latest_telemetry
        ⟨none, some (.list [⟨some 1.8, none⟩]), some (.list [⟨some 22, none⟩])⟩ =
      .ok ⟨none, none, some 1.8, some 22⟩ ∧
    get_latest_telemetry ⟨none, none, none⟩ = .ok ⟨none, none, none, none⟩ :=
  ⟨rfl, rfl, rfl⟩

/-- Claim C6: whenever normalization produces a Reading, its timestamp is
the first non-null `ts` in the fixed priority order ph, conductivity,
temperature; keys examined later never override it. -/
theorem reading_ts_priority (d : RawData) (r : Reading)
    (h : get_latest_telemetry d = .ok r) : r.ts = firstNonNullTs d :=
  (get_latest_telemetry_ok d r h).1

/-- Witness for claim C6: `ph` is absent, so the conductivity `ts` (100) is
taken and the differing temperature `ts` (200) does not override it. -/
theorem reading_ts_priority_w :
    get_latest_telemetry
        ⟨none, some (.list [⟨some 1.8, some 100⟩]),
          some (.list [⟨some 22, some 200⟩])⟩ =
      Except.ok ⟨some 100, none, some 1.8, some 22⟩ ∧
    Reading.ts ⟨some 100, none, some 1.8, some 22⟩ =
      firstNonNullTs
        ⟨none, some (.list [⟨some 1.8, some 100⟩]),
          some (.list [⟨some 22, some 200⟩])⟩ :=
  ⟨rfl, reading_ts_priority _ _ rfl⟩

/-- Claim C7, counterexample: a payload whose `ph` key holds a single
`{value, ts}` object makes `get_latest_telemetry` raise `KeyError` (integer
indexing of a dict), so the single-object shape is not accepted and no
value is extracted. -/
theorem single_object_shape_rejected_cex :
    get_latest_telemetry
        ⟨some (.obj ⟨some 6.5, some 1700000000000⟩), none, none⟩ =
      .error "KeyError: 0" := rfl

/-- Claim C7, amended: each normalizer accepts exactly one top-level shape —
`get_latest_telemetry` accepts only the list shape (extracting the first,
most recent entry) and raises `KeyError` on a single object; the fixedsheets
per-key extraction accepts only the single-object shape and raises
`AttributeError` on a list. -/
theorem shape_handling_per_variant_amended :
    get_latest_telemetry
        ⟨some (.list [⟨some 6.5, some 200⟩, ⟨some 7, some 100⟩]), none, none⟩ =
      .ok ⟨some 200, some 6.5, none, none⟩ ∧
    get_latest_telemetry
        ⟨some (.obj ⟨some 6.5, some 1700000000000⟩), none, none⟩ =
      .error "KeyError: 0" ∧
    fs_value (some (.obj ⟨some 6.5, some 1700000000000⟩)) = .ok (some 6.5) ∧
    fs_value (some (.list [⟨some 6.5, some 1700000000000⟩])) =
      .error "AttributeError: get" :=
  ⟨rfl, rfl, rfl, rfl⟩

/-- Claim C8, counterexample: `convert_c_to_f` rounds to two decimal places,
so at c = 1/200 (Fahrenheit value 32.009) it returns 32.01, not the exact
`c * 9/5 + 32`. -/
theorem convert_c_to_f_not_exact_cex :
    convert_c_to_f (1 / 200) ≠ 1 / 200 * 9 / 5 + 32 := by
  have h : ((1 / 200 : ℚ) * 9 / 5 + 32) * 100 = 32009 / 10 := by norm_num
  have hf : ⌊(32009 / 10 : ℚ)⌋ = 3200 := by
    rw [Int.floor_eq_iff]
    norm_num
  have hr : roundHalfEven (32009 / 10 : ℚ) = 3201 := by
    rw [roundHalfEven, hf]
    norm_num
  rw [convert_c_to_f, h, hr]
  norm_num

/-- Claim C8, amended: `convert_c_to_f c` is `c * 9/5 + 32` rounded to two
decimal places, hence equals `c * 9/5 + 32` exactly whenever that value has
at most two decimals; in particular 0 converts to 32, 100 to 212, and 22 to
71.6. -/
theorem convert_c_to_f_rounded_amended :
    (∀ c : ℚ, (∃ n : ℤ, c * 9 / 5 + 32 = (n : ℚ) / 100) →
        convert_c_to_f c = c * 9 / 5 + 32) ∧
    convert_c_to_f 0 = 32 ∧ convert_c_to_f 100 = 212 ∧
    convert_c_to_f 22 = 716 / 10 := by
  have key : ∀ c : ℚ, (∃ n : ℤ, c * 9 / 5 + 32 = (n : ℚ) / 100) →
      convert_c_to_f c = c * 9 / 5 + 32 := by
    rintro c ⟨n, hn⟩
    have h100 : ((n : ℚ) / 100) * 100 = (n : ℚ) :=
      div_mul_cancel₀ _ (by norm_num)
    rw [convert_c_to_f, hn, h100, roundHalfEven_intCast]
  refine ⟨key, ?_, ?_, ?_⟩
  · have := key 0 ⟨3200, by norm_num⟩
    rw [this]; norm_num
  · have := key 100 ⟨21200, by norm_num⟩
    rw [this]; norm_num
  · have := key 22 ⟨7160, by norm_num⟩
    rw [this]; norm_num

/-- Witness for the amended claim C8 at c = 0. -/
theorem convert_c_to_f_rounded_amended_w :
    convert_c_to_f 0 = 0 * 9 / 5 + 32 :=
  convert_c_to_f_rounded_amended.1 0 ⟨3200, by norm_num⟩

/-- Claim C9: a cycle whose fetch fails with an HTTP or network error leaves
the history untouched and surfaces the categorized message; and every cycle
is all-or-nothing — the history is either unchanged or exactly one
successfully normalized reading is appended. -/
theorem runCycle_failure_safe :
    (∀ (h : List Row) (m : String),
        runCycle h (.httpError m) = (h, .httpErrorMsg m)) ∧
    (∀ (h : List Row) (m : String),
        runCycle h (.netError m) = (h, .netErrorMsg m)) ∧
    (∀ (h : List Row) (f : FetchResult),
        (runCycle h f).1 = h ∨
        ∃ d r, f = .ok d ∧ get_latest_telemetry d = .ok r ∧
          (runCycle h f).1 = append_reading h r.ts r.ph r.ec r.temp) := by
  refine ⟨fun _ _ => rfl, fun _ _ => rfl, ?_⟩
  intro h f
  rcases f with d | m | m
  · rcases hgl : get_latest_telemetry d with e | r
    · left
      simp [runCycle, hgl]
    · right
      exact ⟨d, r, rfl, hgl, by simp [runCycle, hgl]⟩
  · left; rfl
  · left; rfl

/-- Claim C10: a reading whose timestamp equals that of the last stored row
but whose measurement values differ is silently discarded — the history is
returned unchanged and the stored entry keeps its old values. -/
theorem append_reading_discards_new_values :
    ∀ (df : List Row) (lr : Row) (t : ℤ) (ph ec temp : Option ℚ),
      df.getLast? = some lr → lr.time = some t →
      (ph ≠ lr.pH ∨ ec ≠ lr.EC ∨ temp ≠ lr.temperature) →
      append_reading df (some t) ph ec temp = df ∧
      (append_reading df (some t) ph ec temp).getLast? = some lr := by
  intro df lr t ph ec temp h1 h2 _hdiff
  have hnoop := append_reading_last_same_ts df lr t ph ec temp h1 h2
  exact ⟨hnoop, by rw [hnoop, h1]⟩

/-- Witness for claim C10: same timestamp, different conductivity value. -/
theorem append_reading_discards_new_values_w :
    append_reading [⟨some 5, some 6.5, none, none⟩] (some 5) none (some 1.8)
        none = [⟨some 5, some 6.5, none, none⟩] ∧
    (append_reading [⟨some 5, some 6.5, none, none⟩] (some 5) none (some 1.8)
        none).getLast? = some ⟨some 5, some 6.5, none, none⟩ :=
  append_reading_discards_new_values _ _ 5 none (some 1.8) none rfl rfl
    (Or.inl (by decide))

end Edenic
